import Mathlib

/-!
Shallow embedding of the kinematics/safety core of the
OpenAdaptiveRoboticsControlsSystem repository, together with theorems
settling the frozen claims about it.

Sources embedded:
- `src/arcs/safety.py` (`SafetyFilter.filter_action`, `SafetyFilter._clip_action`)
- `src/arcs/geo/se3.py` (`SO3.__init__`, `SE3.compose`, `SE3.inverse`)
- `src/arcs/geo/kinematics.py` (`KinematicsSolver`: chain construction,
  `forward_kinematics`, `_fk_batch_torch`, `jacobian`, `inverse_kinematics`,
  `_validate_joint_limits`, `_joint_motion_matrix`, `_joint_motion_matrix_torch`)

Numeric values are modelled as exact rationals (`ℚ`); where IEEE special
values (NaN/Inf) decide behaviour, a dedicated type `FVal` models them.
Trigonometric and norm primitives of numpy/scipy/torch are abstracted as
explicit function parameters (`s`, `c`, `nv`), so every definition stays
computable; theorems that need their defining properties take them as
hypotheses at the points of use.
-/

set_option maxRecDepth 8000

/-- 3-vectors over exact rationals. -/
abbrev Vec3 : Type := Fin 3 → ℚ

/-- 3×3 rational matrices. -/
abbrev Mat3 : Type := Matrix (Fin 3) (Fin 3) ℚ

/-- Rigid/affine transform: the 4×4 homogeneous matrices handled by the source
(`SE3.as_matrix`, `_origin_matrix`, `_joint_motion_matrix`, the torch FK
accumulator) all have bottom row `(0,0,0,1)`, so a transform is embedded as
its rotation block `R` and translation column `t`. -/
structure Aff where
  R : Mat3
  t : Vec3

/-- Identity transform (`SE3.identity`, `np.eye(4)`, `torch.eye(4)`). -/
def Aff.id : Aff := ⟨1, 0⟩

/-- Composition, from `SE3.compose`: the source comment states
`T1 * T2 = [R1 t1] * [R2 t2] = [R1R2  R1t2 + t1]`; 4×4 homogeneous matrix
products (`T @ origin` in `jacobian`, `torch.bmm` in `_fk_batch_torch`)
compute the same blocks. -/
def Aff.mul (a b : Aff) : Aff := ⟨a.R * b.R, a.R.mulVec b.t + a.t⟩

/-- Inverse, from `SE3.inverse`: the source comment states
`T^-1 = [R^T  -R^T t]` (the quaternion inverse used by scipy is the
transpose at matrix level). -/
def Aff.inv (a : Aff) : Aff := ⟨a.R.transpose, -(a.R.transpose.mulVec a.t)⟩

/-- Cross product of 3-vectors (`np.cross` in `jacobian`). -/
def cross3 (a b : Vec3) : Vec3 :=
  ![a 1 * b 2 - a 2 * b 1, a 2 * b 0 - a 0 * b 2, a 0 * b 1 - a 1 * b 0]

/-- Squared Euclidean norm of a 3-vector; `np.linalg.norm e < tol` is compared
as `normSq3 e < tol^2`. -/
def normSq3 (v : Vec3) : ℚ := v 0 * v 0 + v 1 * v 1 + v 2 * v 2

/-- Skew-symmetric matrix of a vector: the `K` matrix built in
`_joint_motion_matrix_torch`. -/
def skew (a : Vec3) : Mat3 :=
  Matrix.of ![![0, -a 2, a 1], ![a 2, 0, -a 0], ![-a 1, a 0, 0]]

/-- Rodrigues rotation: `eye + sin(q)*K + (1-cos(q))*K@K` exactly as assembled
in `_joint_motion_matrix_torch`; `s`/`c` abstract `sin`/`cos`. -/
def rodrigues (s c : ℚ → ℚ) (a : Vec3) (θ : ℚ) : Mat3 :=
  1 + s θ • skew a + (1 - c θ) • (skew a * skew a)

/-! ## Safety filter: clipping path over exact rationals
From `src/arcs/safety.py`. -/

/-- Per-joint limit vectors, from `JointLimits` in `safety.py`. -/
structure LimitsQ (n : ℕ) where
  posMin : Fin n → ℚ
  posMax : Fin n → ℚ
  velMax : Fin n → ℚ
  torqueMax : Fin n → ℚ

/-- Scalar `np.clip(x, lo, hi) = np.minimum(np.maximum(x, lo), hi)`. -/
def clipQ (x lo hi : ℚ) : ℚ := min (max x lo) hi

/-- One component of `SafetyFilter._clip_action`: clip to `±vel_max`, then to
`±torque_max`, form the next position, clip it to `[pos_min, pos_max]`, and
back-solve `(q_next - q)/dt`. -/
def clipActionComp (L : LimitsQ n) (dt : ℚ) (action q : Fin n → ℚ) (i : Fin n) : ℚ :=
  let s1 := clipQ (action i) (-(L.velMax i)) (L.velMax i)
  let s2 := clipQ s1 (-(L.torqueMax i)) (L.torqueMax i)
  let qNext := clipQ (q i + s2 * dt) (L.posMin i) (L.posMax i)
  (qNext - q i) / dt

/-- `SafetyFilter.filter_action` restricted to finite inputs on the clipping
path (`use_qp=False`, or `cvxpy` absent, or any QP failure — `_solve_qp`
falls back to `_clip_action` on every exception or non-optimal status).
Returns the safe action together with the logged
`(constraint_violations_count, qp_iterations)` pair; the clipping path
reports `iterations = 0`. -/
def filterActionClip (L : LimitsQ n) (dt : ℚ) (action q : Fin n → ℚ) :
    (Fin n → ℚ) × ℕ × ℕ :=
  let safe := clipActionComp L dt action q
  let viol := (Finset.univ.filter (fun i => (1 : ℚ)/1000000 < |action i - safe i|)).card
  (safe, viol, 0)

/-! ## IEEE special values
`FVal` models a floating-point value as NaN, ±Inf, or an exact finite
rational, with the numpy semantics used by `filter_action` and `SO3.__init__`. -/

inductive FVal where
  | nan : FVal
  | pinf : FVal
  | ninf : FVal
  | fin (x : ℚ) : FVal
deriving DecidableEq

/-- `np.isnan`. -/
def FVal.isnan : FVal → Bool
  | .nan => true
  | _ => false

/-- IEEE negation. -/
def FVal.neg : FVal → FVal
  | .nan => .nan
  | .pinf => .ninf
  | .ninf => .pinf
  | .fin x => .fin (-x)

/-- IEEE addition (NaN propagates; `inf + (-inf) = NaN`). -/
def FVal.add : FVal → FVal → FVal
  | .nan, _ => .nan
  | _, .nan => .nan
  | .pinf, .ninf => .nan
  | .ninf, .pinf => .nan
  | .pinf, _ => .pinf
  | _, .pinf => .pinf
  | .ninf, _ => .ninf
  | _, .ninf => .ninf
  | .fin x, .fin y => .fin (x + y)

/-- IEEE subtraction. -/
def FVal.sub (a b : FVal) : FVal := a.add b.neg

/-- IEEE multiplication (`inf * 0 = NaN`). -/
def FVal.mul : FVal → FVal → FVal
  | .nan, _ => .nan
  | _, .nan => .nan
  | .pinf, .pinf => .pinf
  | .pinf, .ninf => .ninf
  | .ninf, .pinf => .ninf
  | .ninf, .ninf => .pinf
  | .pinf, .fin y => if y = 0 then .nan else if 0 < y then .pinf else .ninf
  | .ninf, .fin y => if y = 0 then .nan else if 0 < y then .ninf else .pinf
  | .fin x, .pinf => if x = 0 then .nan else if 0 < x then .pinf else .ninf
  | .fin x, .ninf => if x = 0 then .nan else if 0 < x then .ninf else .pinf
  | .fin x, .fin y => .fin (x * y)

/-- IEEE division (`0/0 = NaN`, `x/0 = ±inf` for `x ≠ 0`, `inf/inf = NaN`).
This is the semantics of the numpy array division in `SO3.__init__`
(which warns rather than raising). -/
def FVal.div : FVal → FVal → FVal
  | .nan, _ => .nan
  | _, .nan => .nan
  | .pinf, .pinf => .nan
  | .pinf, .ninf => .nan
  | .ninf, .pinf => .nan
  | .ninf, .ninf => .nan
  | .pinf, .fin y => if 0 ≤ y then .pinf else .ninf
  | .ninf, .fin y => if 0 ≤ y then .ninf else .pinf
  | .fin _, .pinf => .fin 0
  | .fin _, .ninf => .fin 0
  | .fin x, .fin y =>
      if y = 0 then (if x = 0 then .nan else if 0 < x then .pinf else .ninf)
      else .fin (x / y)

/-- `np.maximum` (NaN propagates). -/
def FVal.fmax : FVal → FVal → FVal
  | .nan, _ => .nan
  | _, .nan => .nan
  | .pinf, _ => .pinf
  | _, .pinf => .pinf
  | .ninf, b => b
  | a, .ninf => a
  | .fin x, .fin y => .fin (max x y)

/-- `np.minimum` (NaN propagates). -/
def FVal.fmin : FVal → FVal → FVal
  | .nan, _ => .nan
  | _, .nan => .nan
  | .ninf, _ => .ninf
  | _, .ninf => .ninf
  | .pinf, b => b
  | a, .pinf => a
  | .fin x, .fin y => .fin (min x y)

/-- `np.clip` on special values. -/
def FVal.clip (x lo hi : FVal) : FVal := (x.fmax lo).fmin hi

/-- IEEE absolute value. -/
def FVal.abs : FVal → FVal
  | .nan => .nan
  | .pinf => .pinf
  | .ninf => .pinf
  | .fin x => .fin |x|

/-- Comparison `c < a` as evaluated by numpy (`NaN > c` is false). -/
def FVal.gtQ (a : FVal) (cq : ℚ) : Bool :=
  match a with
  | .nan => false
  | .pinf => true
  | .ninf => false
  | .fin x => decide (cq < x)

/-- `np.any(np.isnan(v))`. -/
def hasNaN (v : Fin n → FVal) : Bool := decide (∃ i, (v i).isnan = true)

/-- One component of `_clip_action` evaluated in IEEE semantics. -/
def clipActionCompF (L : LimitsQ n) (dt : ℚ) (action q : Fin n → FVal) (i : Fin n) : FVal :=
  let s1 := (action i).clip (.fin (-(L.velMax i))) (.fin (L.velMax i))
  let s2 := s1.clip (.fin (-(L.torqueMax i))) (.fin (L.torqueMax i))
  let qNext := ((q i).add (s2.mul (.fin dt))).clip (.fin (L.posMin i)) (.fin (L.posMax i))
  (qNext.sub (q i)).div (.fin dt)

/-- `SafetyFilter.filter_action` with its NaN validation, over IEEE values,
on the clipping path. The result is the safe action together with the logged
`(constraint_violations_count, qp_iterations)` pair: the NaN branches return
zeros and log `(0, 0)` (the source passes `violations=0, iterations=0` to
`_log_event`); note `np.isnan` does not flag infinities. -/
def filterActionF (L : LimitsQ n) (dt : ℚ) (action q : Fin n → FVal) :
    (Fin n → FVal) × ℕ × ℕ :=
  if hasNaN action then (fun _ => .fin 0, 0, 0)
  else if hasNaN q then (fun _ => .fin 0, 0, 0)
  else
    let safe := clipActionCompF L dt action q
    let viol := (Finset.univ.filter (fun i => ((action i).sub (safe i)).abs.gtQ ((1 : ℚ)/1000000))).card
    (safe, viol, 0)

/-! ## Rotation construction (`SO3.__init__` / `SO3.from_quat`) -/

/-- Squared norm of a quaternion `[x, y, z, w]`. -/
def normSqQ4 (q : Fin 4 → ℚ) : ℚ := q 0 * q 0 + q 1 * q 1 + q 2 * q 2 + q 3 * q 3

/-- Squared norm evaluated in IEEE semantics (NaN propagates). -/
def normSqF (v : Fin 4 → FVal) : FVal :=
  ((((v 0).mul (v 0)).add ((v 1).mul (v 1))).add ((v 2).mul (v 2))).add
    ((v 3).mul (v 3))

/-- Construction of a rotation from a (finite) quaternion, from
`SO3.__init__`: numpy computes `quat / np.linalg.norm(quat)` — division by a
zero norm yields NaN components with a warning, never an exception — and then
`scipy.Rotation.from_quat` raises exactly when a stored quaternion has zero
norm. The square root inside `np.linalg.norm` is abstracted as `rt` applied
to the squared norm, and the scipy zero-norm test is taken on the squared
norm (zero norm iff zero squared norm; NaN propagates through both). -/
def SO3initF (rt : ℚ → ℚ) (q : Fin 4 → ℚ) : Except String (Fin 4 → FVal) :=
  let nrm : FVal := .fin (rt (normSqQ4 q))
  let qn : Fin 4 → FVal := fun i => (FVal.fin (q i)).div nrm
  if normSqF qn = FVal.fin 0 then Except.error "zero norm quaternion"
  else Except.ok qn

/-! ## Kinematic chain model
From `src/arcs/geo/kinematics.py`. A joint carries the fields extracted by
`_build_chain`: name, parent and child link, type string, origin transform,
axis, and optional lower/upper limits. -/

structure RJoint where
  name : String
  parent : String
  child : String
  jtype : String
  origin : Aff
  axis : Vec3
  lowerLim : Option ℚ
  upperLim : Option ℚ

instance : Inhabited RJoint := ⟨⟨"", "", "", "fixed", Aff.id, 0, none, none⟩⟩

/-- Kinematics error outcomes (the `ValueError`s raised by the solver). -/
inductive KErr where
  | noRoot
  | missingJoint (link : String)
  | dimMismatch
  | limitExceeded (name : String) (value : ℚ)
  | linkNotFound (link : String)
  | fuelExhausted
deriving DecidableEq

/-- Links that are a parent of some joint but never a child — the
`parents - children` set of the fallback branch of `_get_base_link_name`,
listed in joint order without duplicates. -/
def rootCandidates (joints : List RJoint) : List String :=
  ((joints.map (fun j => j.parent)).filter
    (fun p => ¬ p ∈ joints.map (fun j => j.child))).dedup

/-- Fallback branch of `_get_base_link_name`: `roots = list(parents - children)`,
error when empty, otherwise `roots[0]`. Python set iteration order is
unspecified; the model returns the first candidate in joint order, and every
theorem below uses only order-independent consequences. -/
def getBaseLinkFallback (joints : List RJoint) : Except KErr String :=
  match rootCandidates joints with
  | [] => Except.error KErr.noRoot
  | r :: _ => Except.ok r

/-- The `child_to_joint` dict of `_build_chain`: a comprehension keyed by
child link, so a later joint with the same child overwrites an earlier one. -/
def childToJoint (joints : List RJoint) (link : String) : Option RJoint :=
  joints.reverse.find? (fun j => j.child = link)

/-- The walk of `_build_chain` from the end-effector link to the base link,
collecting the incoming joint of each visited link; the source appends and
reverses, here the recursion appends after the recursive call, producing the
same base→effector order. The Python `while` loop is unbounded (it would not
terminate on a cyclic parent graph); `fuel` makes the recursion structural. -/
def chainWalk (joints : List RJoint) (base : String) : ℕ → String → Except KErr (List RJoint)
  | 0, _ => Except.error KErr.fuelExhausted
  | fuel + 1, link =>
    if link = base then Except.ok []
    else
      match childToJoint joints link with
      | none => Except.error (KErr.missingJoint link)
      | some j => (chainWalk joints base fuel j.parent).map (fun rest => rest ++ [j])

/-- `_validate_joint_limits`: scan joints in order, skip joints lacking either
bound, raise at the first value outside `[lower, upper]`. Dimension agreement
is checked by the callers before this runs. -/
def validateLimits : List RJoint → List ℚ → Except KErr Unit
  | [], _ => Except.ok ()
  | _, [] => Except.ok ()
  | j :: js, x :: xs =>
    match j.lowerLim, j.upperLim with
    | some lo, some hi =>
        if x < lo ∨ hi < x then Except.error (KErr.limitExceeded j.name x)
        else validateLimits js xs
    | _, _ => validateLimits js xs

/-- `axis / (norm(axis) + 1e-8)`, with the norm abstracted as `nv`. -/
def normAxis (nv : Vec3 → ℚ) (a : Vec3) : Vec3 :=
  fun i => a i / (nv a + 1/100000000)

/-- `_joint_motion_matrix`: revolute/continuous joints rotate about the
normalized axis; prismatic joints translate along the *raw* axis; anything
else is the identity. The scipy call `Rotation.from_rotvec(axis * q)` is
external; the rotation it denotes (spec §4.3: rotation by angle `q` about
the normalized local axis) is modelled by the Rodrigues matrix with abstract
sine/cosine. -/
def motionNp (s c : ℚ → ℚ) (nv : Vec3 → ℚ) (ty : String) (axis : Vec3) (θ : ℚ) : Aff :=
  if ty = "revolute" ∨ ty = "continuous" then ⟨rodrigues s c (normAxis nv axis) θ, 0⟩
  else if ty = "prismatic" then ⟨1, fun i => axis i * θ⟩
  else Aff.id

/-- `_joint_motion_matrix_torch`: the axis is normalized *before* the branch,
so, unlike `_joint_motion_matrix`, the prismatic translation uses the
normalized axis; the revolute branch assembles the same Rodrigues matrix. -/
def motionTorch (s c : ℚ → ℚ) (nv : Vec3 → ℚ) (ty : String) (axis : Vec3) (θ : ℚ) : Aff :=
  let a := normAxis nv axis
  if ty = "revolute" ∨ ty = "continuous" then ⟨rodrigues s c a θ, 0⟩
  else if ty = "prismatic" then ⟨1, fun i => θ * a i⟩
  else Aff.id

/-- Left fold of origin and motion transforms along (joint, coordinate)
pairs — the accumulation `T = T_joint @ motion` used by `jacobian` and by
the spec's FK algorithm. -/
def fkFold (s c : ℚ → ℚ) (nv : Vec3 → ℚ) : Aff → List (RJoint × ℚ) → Aff
  | T, [] => T
  | T, (j, x) :: rest =>
      fkFold s c nv ((T.mul j.origin).mul (motionNp s c nv j.jtype j.axis x)) rest

/-- Modelled from the spec: the end-effector pose of `forward_kinematics` is
obtained from the external urdf library call `self._urdf.link_fk`, whose code
is not part of this repository; spec §4.3 specifies the pose as the product,
in chain order, of each joint's origin transform and motion transform
starting from the identity, which is what this definition computes. -/
def chainFK (s c : ℚ → ℚ) (nv : Vec3 → ℚ) (chain : List RJoint) (q : List ℚ) : Aff :=
  fkFold s c nv Aff.id (chain.zip q)

/-- Single-configuration `forward_kinematics` queried at the end-effector
link: the in-source dimension check and joint-limit validation, then the
(spec-modelled) pose. -/
def fkSingle (s c : ℚ → ℚ) (nv : Vec3 → ℚ) (chain : List RJoint) (q : List ℚ) :
    Except KErr Aff :=
  if q.length ≠ chain.length then Except.error KErr.dimMismatch
  else
    match validateLimits chain q with
    | Except.error e => Except.error e
    | Except.ok _ => Except.ok (chainFK s c nv chain q)

/-- The 2-D, non-torch branch of `forward_kinematics`: a list comprehension
calling the single-configuration solver on every row. -/
def fkBatchPerRow (s c : ℚ → ℚ) (nv : Vec3 → ℚ) (chain : List RJoint)
    (qs : List (List ℚ)) : List (Except KErr Aff) :=
  qs.map (fkSingle s c nv chain)

/-- The frame-collecting loop of `jacobian`: walking the chain it records,
per joint, the frame `T_joint = T @ origin`, the local axis and the type,
and advances `T` by the motion transform; returns the recorded frames and
the final end-effector transform. -/
def fkFrames (s c : ℚ → ℚ) (nv : Vec3 → ℚ) :
    Aff → List (RJoint × ℚ) → List (Aff × Vec3 × String) × Aff
  | T, [] => ([], T)
  | T, (j, x) :: rest =>
      let Tj := T.mul j.origin
      let res := fkFrames s c nv (Tj.mul (motionNp s c nv j.jtype j.axis x)) rest
      ((Tj, j.axis, j.jtype) :: res.1, res.2)

/-- Stack a linear part on top of an angular part into a 6-row column. -/
def cat6 (v w : Vec3) : Fin 6 → ℚ :=
  fun k => if h : (k : ℕ) < 3 then v ⟨k, h⟩ else w ⟨(k : ℕ) - 3, by omega⟩

/-- One column of the Jacobian as assembled by the column loop of `jacobian`
from a recorded frame and the end-effector position. -/
def colOf (pee : Vec3) (fr : Aff × Vec3 × String) : Fin 6 → ℚ :=
  let aw := fr.1.R.mulVec fr.2.1
  if fr.2.2 = "revolute" ∨ fr.2.2 = "continuous" then cat6 (cross3 aw (pee - fr.1.t)) aw
  else if fr.2.2 = "prismatic" then cat6 aw 0
  else 0

/-- The column list built by `jacobian` after validation: frames first, then
one column per frame (the source writes them into a 6×N zero matrix). -/
def jacCols (s c : ℚ → ℚ) (nv : Vec3 → ℚ) (chain : List RJoint) (q : List ℚ) :
    List (Fin 6 → ℚ) :=
  let res := fkFrames s c nv Aff.id (chain.zip q)
  res.1.map (colOf res.2.t)

/-- `jacobian` with its dimension check and joint-limit validation. -/
def jacobianChecked (s c : ℚ → ℚ) (nv : Vec3 → ℚ) (chain : List RJoint) (q : List ℚ) :
    Except KErr (List (Fin 6 → ℚ)) :=
  if q.length ≠ chain.length then Except.error KErr.dimMismatch
  else
    match validateLimits chain q with
    | Except.error e => Except.error e
    | Except.ok _ => Except.ok (jacCols s c nv chain q)

/-- The claimed form of column `j`: the joint frame is the product of the
first `j` origin·motion factors times joint `j`'s own origin; `a_j` is its
rotated axis, `p_j` its translation, `p_ee` the full-chain position;
revolute/continuous columns are `(a_j × (p_ee - p_j), a_j)`, prismatic
columns `(a_j, 0)`, and any other kind the zero column. -/
def specColumn (s c : ℚ → ℚ) (nv : Vec3 → ℚ) (chain : List RJoint) (q : List ℚ)
    (j : ℕ) : Fin 6 → ℚ :=
  let jt := chain.getD j default
  let Tj := (fkFold s c nv Aff.id ((chain.zip q).take j)).mul jt.origin
  let aw := Tj.R.mulVec jt.axis
  let pee := (fkFold s c nv Aff.id (chain.zip q)).t
  if jt.jtype = "revolute" ∨ jt.jtype = "continuous" then cat6 (cross3 aw (pee - Tj.t)) aw
  else if jt.jtype = "prismatic" then cat6 aw 0
  else 0

/-- Positional rows of a column: `J[:3, :]`. -/
def firstThree (col : Fin 6 → ℚ) : Fin 3 → ℚ :=
  fun i => col ⟨(i : ℕ), by omega⟩

/-- `inverse_kinematics`: damped-least-squares loop. At each step compute the
end-effector pose, stop when `‖target - current‖ < 1e-4` (compared on the
squared norm), else step by `pinv(J[:3,:]) @ error`; `np.linalg.pinv` is
external and abstracted as `pinvApp` applied to the positional rows and the
error vector. Exhausting the iteration budget returns the last iterate (the
`return q` after the for-loop); errors raised by `forward_kinematics` or
`jacobian` propagate. The `isinstance` guard of the source is unreachable
for 1-D inputs and not modelled. -/
def ikLoop (s c : ℚ → ℚ) (nv : Vec3 → ℚ)
    (pinvApp : List (Fin 3 → ℚ) → Vec3 → List ℚ)
    (chain : List RJoint) (targetT : Vec3) : ℕ → List ℚ → Except KErr (List ℚ)
  | 0, q => Except.ok q
  | fuel + 1, q =>
    match fkSingle s c nv chain q with
    | Except.error e => Except.error e
    | Except.ok cur =>
      let e3 : Vec3 := fun i => targetT i - cur.t i
      if normSq3 e3 < 1/100000000 then Except.ok q
      else
        match jacobianChecked s c nv chain q with
        | Except.error e => Except.error e
        | Except.ok cols =>
            ikLoop s c nv pinvApp chain targetT fuel
              (List.zipWith (fun a b => a + b) q (pinvApp (cols.map firstThree) e3))

/-! ## Torch batched FK (`_fk_batch_torch`) -/

/-- One joint step of the torch accumulation for one batch row: multiply the
row's pose by the joint origin and the torch motion transform at the row's
next coordinate (`q_t[:, idx]` consumed positionally). -/
def torchStep (s c : ℚ → ℚ) (nv : Vec3 → ℚ) (j : RJoint) (st : Aff × List ℚ) :
    Aff × List ℚ :=
  ((st.1.mul j.origin).mul (motionTorch s c nv j.jtype j.axis (st.2.headD 0)), st.2.tail)

/-- The torch accumulation applied to a single row. -/
def fkRowTorch (s c : ℚ → ℚ) (nv : Vec3 → ℚ) (pref : List RJoint) (row : List ℚ) : Aff :=
  (pref.foldl (fun st j => torchStep s c nv j st) (Aff.id, row)).1

/-- The batched torch loop: the state carries one `(pose, remaining
coordinates)` pair per row, initialised to identities, and every joint step
updates all rows (`torch.bmm` over the batch). -/
def fkBatchTorchCore (s c : ℚ → ℚ) (nv : Vec3 → ℚ) (pref : List RJoint)
    (qs : List (List ℚ)) : List Aff :=
  (pref.foldl (fun sts j => sts.map (torchStep s c nv j))
    (qs.map (fun row => (Aff.id, row)))).map (fun st => st.1)

/-- Index of the last occurrence of `x` (the `link_targets` dict comprehension
keeps the last index for a repeated child name). -/
def lastIdxOf (l : List String) (x : String) : Option ℕ :=
  ((List.range l.length).filter (fun i => l.getD i "" = x)).getLast?

/-- `_fk_batch_torch`: base link yields identities; a link that is neither a
joint child nor the end-effector raises; otherwise the first `target_index+1`
joints are accumulated over the whole batch. No joint-limit validation is
performed anywhere on this path. -/
def fkBatchTorch (s c : ℚ → ℚ) (nv : Vec3 → ℚ) (chain : List RJoint)
    (baseLink eeLink link : String) (qs : List (List ℚ)) : Except KErr (List Aff) :=
  let lfj := chain.map (fun j => j.child)
  if link = baseLink then Except.ok (qs.map (fun _ => Aff.id))
  else if ¬ link ∈ lfj ∧ link ≠ eeLink then Except.error (KErr.linkNotFound link)
  else
    let ti := (lastIdxOf lfj link).getD (lfj.length - 1)
    Except.ok (fkBatchTorchCore s c nv (chain.take (ti + 1)) qs)

/-! ## Concrete instances used by witnesses and counterexamples -/

/-- The limit configuration of the spec's safety test vector
(`pos_min=[-1,-1], pos_max=[1,1], vel_max=[0.5,0.5], torque_max=[0.5,0.5]`). -/
def limitsSpec : LimitsQ 2 := ⟨fun _ => -1, fun _ => 1, fun _ => 1/2, fun _ => 1/2⟩

/-- Same limits on a single joint. -/
def limits1 : LimitsQ 1 := ⟨fun _ => -1, fun _ => 1, fun _ => 1/2, fun _ => 1/2⟩

/-- Concrete stand-in for the abstract sine. -/
def zeroSin : ℚ → ℚ := fun _ => 0

/-- Concrete stand-in for the abstract cosine. -/
def oneCos : ℚ → ℚ := fun _ => 1

/-- Concrete stand-in for the abstract vector norm; correct for the unit
axes used in the concrete chains below. -/
def oneNorm : Vec3 → ℚ := fun _ => 1

/-- Rotation by 90° about `z` (an exact orthogonal rational matrix). -/
def rotZ90 : Mat3 := Matrix.of ![![0,-1,0],![1,0,0],![0,0,1]]

/-- A concrete rigid transform with a nontrivial rotation and translation. -/
def aff90 : Aff := ⟨rotZ90, ![1,2,3]⟩

/-- The revolute joint of the repository's mock URDF test chain
(origin offset `(0,0,1)`, axis `z`, limits `±3.14`). -/
def revJoint : RJoint :=
  ⟨"j1", "base_link", "link1", "revolute", ⟨1, ![0,0,1]⟩, ![0,0,1],
   some (-(314/100)), some (314/100)⟩

/-- The prismatic joint of the repository's mock URDF test chain
(axis `x`, limits `[0, 1]`). -/
def prismJoint : RJoint :=
  ⟨"j2", "link1", "link2", "prismatic", Aff.id, ![1,0,0], some 0, some 1⟩

/-- The two-joint mock chain (revolute then prismatic). -/
def chain2 : List RJoint := [revJoint, prismJoint]

/-- A single fixed joint from link `a` to link `b`. -/
def oneJoint : RJoint := ⟨"j", "a", "b", "fixed", Aff.id, 0, none, none⟩

/-- Two disjoint one-joint chains, hence two root candidates. -/
def twoRootJoints : List RJoint :=
  [⟨"ja", "la", "lb", "fixed", Aff.id, 0, none, none⟩,
   ⟨"jc", "lc", "ld", "fixed", Aff.id, 0, none, none⟩]

/-- Closed-form Moore–Penrose pseudoinverse application for a 3×1 positional
Jacobian (`pinv(c) = cᵀ/‖c‖²`, the zero column giving the zero row), used to
instantiate the abstract `np.linalg.pinv` at concrete inputs. -/
def pinvOneCol : List (Fin 3 → ℚ) → Vec3 → List ℚ := fun cols e =>
  match cols with
  | [cl] => [(cl 0 * e 0 + cl 1 * e 1 + cl 2 * e 2) /
             (cl 0 * cl 0 + cl 1 * cl 1 + cl 2 * cl 2)]
  | _ => []

/-- Integer-valued limits on a single joint (position `±2`, velocity and
torque `1`), chosen so that branch conditions reduce in the kernel. -/
def limitsInt1 : LimitsQ 1 := ⟨fun _ => -2, fun _ => 2, fun _ => 1, fun _ => 1⟩

/-! # Theorems -/

/-! ## Clipping arithmetic -/

/-- A clipped value lands in the clipping interval. -/
theorem clipQ_mem (x lo hi : ℚ) (h : lo ≤ hi) : lo ≤ clipQ x lo hi ∧ clipQ x lo hi ≤ hi :=
  ⟨le_min (le_max_right _ _) h, min_le_right _ _⟩

/-- Clipping to a symmetric interval shrinks the absolute value. -/
theorem abs_clipQ_sym_le (x m : ℚ) (hm : 0 ≤ m) :
    |clipQ x (-m) m| ≤ |x| ∧ |clipQ x (-m) m| ≤ m := by
  constructor
  · rw [abs_le]
    constructor
    · exact le_min (le_trans (neg_abs_le x) (le_max_left _ _))
        (le_trans (neg_nonpos_of_nonneg (abs_nonneg x)) hm)
    · exact le_trans (min_le_left _ _)
        (max_le (le_abs_self x) (le_trans (neg_nonpos_of_nonneg hm) (abs_nonneg x)))
  · rw [abs_le]
    exact ⟨le_min (le_max_right _ _) (le_trans (neg_nonpos_of_nonneg hm) hm),
      min_le_right _ _⟩

/-- Clipping `xq + d` to an interval containing `xq` moves `xq` by at most `|d|`. -/
theorem clipQ_between (d lo hi xq : ℚ) (hlo : lo ≤ xq) (hhi : xq ≤ hi) :
    |clipQ (xq + d) lo hi - xq| ≤ |d| := by
  rw [abs_le]
  constructor
  · have h1 : xq - |d| ≤ clipQ (xq + d) lo hi :=
      le_min (le_trans (by linarith [neg_abs_le d]) (le_max_left _ _))
        (by linarith [abs_nonneg d])
    linarith
  · have h2 : clipQ (xq + d) lo hi ≤ xq + |d| :=
      le_trans (min_le_left _ _)
        (max_le (by linarith [le_abs_self d]) (by linarith [abs_nonneg d]))
    linarith

/-- C1 (amended): on the clipping path, whenever the current position lies
within the configured position limits and the velocity/torque limits are
nonnegative (with `dt > 0`), every component of the filtered action respects
the velocity bound and the torque bound, and the implied next position
`q + u·dt` stays inside `[pos_min, pos_max]`. Without the hypothesis on the
current position the velocity bound can fail (see the counterexample). -/
theorem C1_filter_bounds {n : ℕ} (L : LimitsQ n) (dt : ℚ) (action q : Fin n → ℚ)
    (hdt : 0 < dt)
    (hq : ∀ i, L.posMin i ≤ q i ∧ q i ≤ L.posMax i)
    (hv : ∀ i, 0 ≤ L.velMax i) (ht : ∀ i, 0 ≤ L.torqueMax i) :
    ∀ i, |(filterActionClip L dt action q).1 i| ≤ L.velMax i ∧
      |(filterActionClip L dt action q).1 i| ≤ L.torqueMax i ∧
      L.posMin i ≤ q i + (filterActionClip L dt action q).1 i * dt ∧
      q i + (filterActionClip L dt action q).1 i * dt ≤ L.posMax i := by
  intro i
  set s1 := clipQ (action i) (-(L.velMax i)) (L.velMax i) with hs1
  set s2 := clipQ s1 (-(L.torqueMax i)) (L.torqueMax i) with hs2
  set qn := clipQ (q i + s2 * dt) (L.posMin i) (L.posMax i) with hqn
  have hsafe : (filterActionClip L dt action q).1 i = (qn - q i) / dt := rfl
  have h1 := abs_clipQ_sym_le (action i) (L.velMax i) (hv i)
  have h2 := abs_clipQ_sym_le s1 (L.torqueMax i) (ht i)
  have hb : |qn - q i| ≤ |s2 * dt| := clipQ_between (s2 * dt) _ _ _ (hq i).1 (hq i).2
  have habs : |(qn - q i) / dt| ≤ |s2| := by
    rw [abs_div, abs_of_pos hdt, div_le_iff₀ hdt]
    calc |qn - q i| ≤ |s2 * dt| := hb
      _ = |s2| * dt := by rw [abs_mul, abs_of_pos hdt]
  have hpos : q i + (qn - q i) / dt * dt = qn := by
    rw [div_mul_cancel₀ _ (ne_of_gt hdt)]; ring
  have hmem := clipQ_mem (q i + s2 * dt) (L.posMin i) (L.posMax i)
    (le_trans (hq i).1 (hq i).2)
  refine ⟨?_, ?_, ?_, ?_⟩ <;> rw [hsafe]
  · exact le_trans habs (le_trans h2.1 h1.2)
  · exact le_trans habs h2.2
  · rw [hpos]; exact hmem.1
  · rw [hpos]; exact hmem.2

/-- Witness for C1 at the spec's test vector: limits `±1` position, `0.5`
velocity/torque, `dt = 0.1`, action `[2,-2]` at position `[0,0]`; both output
components lie within `[-0.5, 0.5]`. -/
theorem C1_filter_bounds_witness :
    ((0 : ℚ) < 1/10 ∧ (∀ i, limitsSpec.posMin i ≤ (0 : Fin 2 → ℚ) i ∧
        (0 : Fin 2 → ℚ) i ≤ limitsSpec.posMax i) ∧
      (∀ i, 0 ≤ limitsSpec.velMax i) ∧ (∀ i, 0 ≤ limitsSpec.torqueMax i)) ∧
    (∀ i, |(filterActionClip limitsSpec (1/10) ![2,-2] 0).1 i| ≤ limitsSpec.velMax i ∧
      |(filterActionClip limitsSpec (1/10) ![2,-2] 0).1 i| ≤ limitsSpec.torqueMax i ∧
      limitsSpec.posMin i ≤ (0 : Fin 2 → ℚ) i +
        (filterActionClip limitsSpec (1/10) ![2,-2] 0).1 i * (1/10) ∧
      (0 : Fin 2 → ℚ) i + (filterActionClip limitsSpec (1/10) ![2,-2] 0).1 i * (1/10)
        ≤ limitsSpec.posMax i) :=
  ⟨⟨by norm_num, by intro i; constructor <;> norm_num [limitsSpec],
      by intro i; norm_num [limitsSpec], by intro i; norm_num [limitsSpec]⟩,
    C1_filter_bounds limitsSpec (1/10) ![2,-2] 0 (by norm_num)
      (by intro i; constructor <;> norm_num [limitsSpec])
      (by intro i; norm_num [limitsSpec]) (by intro i; norm_num [limitsSpec])⟩

/-- Counterexample to C1 as stated: with the current position outside the
position limits (here `q = 10` with `pos_max = 1`), the clipping fallback
back-solves an action of magnitude `90`, violating the velocity bound `0.5`. -/
theorem C1_velocity_bound_cex :
    (filterActionClip limits1 (1/10) (fun _ => 0) (fun _ => 10)).1 0 = -90 ∧
    ¬ |(filterActionClip limits1 (1/10) (fun _ => 0) (fun _ => 10)).1 0| ≤
      limits1.velMax 0 := by
  have h : (filterActionClip limits1 (1/10) (fun _ => 0) (fun _ => 10)).1 0 = -90 := by
    norm_num [filterActionClip, clipActionComp, clipQ, limits1, min_def, max_def]
  exact ⟨h, by rw [h]; norm_num [limits1]⟩

/-- C10 (confirmed): in exact arithmetic the clipping fallback is
kinematically consistent with its own position clipping: for `dt > 0` and
`pos_min ≤ pos_max`, `q + u·dt` equals the double-clipped commanded action
integrated and clipped to the position interval, and therefore lies inside
`[pos_min, pos_max]` — with no assumption that `q` itself is inside. -/
theorem C10_clip_consistency {n : ℕ} (L : LimitsQ n) (dt : ℚ) (action q : Fin n → ℚ)
    (hdt : 0 < dt) (hlh : ∀ i, L.posMin i ≤ L.posMax i) :
    ∀ i, q i + (filterActionClip L dt action q).1 i * dt =
        clipQ (q i + clipQ (clipQ (action i) (-(L.velMax i)) (L.velMax i))
          (-(L.torqueMax i)) (L.torqueMax i) * dt) (L.posMin i) (L.posMax i) ∧
      L.posMin i ≤ q i + (filterActionClip L dt action q).1 i * dt ∧
      q i + (filterActionClip L dt action q).1 i * dt ≤ L.posMax i := by
  intro i
  have hsafe : (filterActionClip L dt action q).1 i =
      (clipQ (q i + clipQ (clipQ (action i) (-(L.velMax i)) (L.velMax i))
        (-(L.torqueMax i)) (L.torqueMax i) * dt) (L.posMin i) (L.posMax i) - q i) / dt := rfl
  have hpos : ∀ z : ℚ, q i + (z - q i) / dt * dt = z := by
    intro z; rw [div_mul_cancel₀ _ (ne_of_gt hdt)]; ring
  refine ⟨?_, ?_, ?_⟩ <;> rw [hsafe, hpos]
  · exact (clipQ_mem _ _ _ (hlh i)).1
  · exact (clipQ_mem _ _ _ (hlh i)).2

/-- Witness for C10 at a position outside the limits: `q = 10`, zero action;
the next position is exactly the clipped value and lies inside `[-1, 1]`. -/
theorem C10_clip_consistency_witness :
    ((0 : ℚ) < 1/10 ∧ (∀ i, limits1.posMin i ≤ limits1.posMax i)) ∧
    (∀ i, (fun _ : Fin 1 => (10 : ℚ)) i +
        (filterActionClip limits1 (1/10) (fun _ => 0) (fun _ => 10)).1 i * (1/10) =
        clipQ ((fun _ : Fin 1 => (10 : ℚ)) i +
          clipQ (clipQ ((fun _ : Fin 1 => (0 : ℚ)) i) (-(limits1.velMax i)) (limits1.velMax i))
            (-(limits1.torqueMax i)) (limits1.torqueMax i) * (1/10))
          (limits1.posMin i) (limits1.posMax i) ∧
      limits1.posMin i ≤ (fun _ : Fin 1 => (10 : ℚ)) i +
        (filterActionClip limits1 (1/10) (fun _ => 0) (fun _ => 10)).1 i * (1/10) ∧
      (fun _ : Fin 1 => (10 : ℚ)) i +
        (filterActionClip limits1 (1/10) (fun _ => 0) (fun _ => 10)).1 i * (1/10)
        ≤ limits1.posMax i) :=
  ⟨⟨by norm_num, by intro i; norm_num [limits1]⟩,
    C10_clip_consistency limits1 (1/10) (fun _ => 0) (fun _ => 10) (by norm_num)
      (by intro i; norm_num [limits1])⟩

/-! ## C2: NaN validation of the safety filter -/

/-- C2 (amended): whenever the commanded action or the current joint position
contains NaN, `filter_action` returns the all-zero action immediately and
logs an event with zero violations and zero solver iterations; the function
is total, so no exception is raised. (Values that are infinite but not NaN
are not detected by this validation — see the counterexample.) -/
theorem C2_nan_fail_closed {n : ℕ} (L : LimitsQ n) (dt : ℚ) (action q : Fin n → FVal)
    (h : hasNaN action = true ∨ hasNaN q = true) :
    filterActionF L dt action q = (fun _ => FVal.fin 0, 0, 0) := by
  unfold filterActionF
  rcases h with h | h
  · rw [if_pos h]
  · by_cases hA : hasNaN action = true
    · rw [if_pos hA]
    · rw [if_neg hA, if_pos h]

/-- Witness for C2: a NaN action component yields the zero action with a
`(0, 0)` log record. -/
theorem C2_nan_fail_closed_witness :
    (hasNaN (fun _ : Fin 1 => FVal.nan) = true ∨
      hasNaN (fun _ : Fin 1 => FVal.fin 0) = true) ∧
    filterActionF limits1 (1/10) (fun _ => FVal.nan) (fun _ => FVal.fin 0)
      = (fun _ => FVal.fin 0, 0, 0) :=
  ⟨Or.inl (by decide),
    C2_nan_fail_closed limits1 (1/10) (fun _ => FVal.nan) (fun _ => FVal.fin 0)
      (Or.inl (by decide))⟩

/-- Counterexample to C2 as stated: an action component equal to `+inf` is
not flagged by `np.isnan`, so the filter proceeds to clipping and returns the
velocity limit `1`, not the zero action. -/
theorem C2_inf_passes_validation_cex :
    (filterActionF limitsInt1 1 (fun _ => FVal.pinf) (fun _ => FVal.fin 0)).1 0
      = FVal.fin 1 ∧ FVal.fin (1 : ℚ) ≠ FVal.fin 0 := by
  have h0 : (filterActionF limitsInt1 1 (fun _ => FVal.pinf) (fun _ => FVal.fin 0)).1 0
      = FVal.fin ((min (max ((0 : ℚ) + 1 * 1) (-2)) 2 + -0) / 1) := rfl
  constructor
  · rw [h0]
    norm_num
  · intro hcon
    have : (1 : ℚ) = 0 := FVal.fin.inj hcon
    norm_num at this

/-! ## C8: compose with inverse -/

/-- C8 (confirmed): for every rigid transform whose rotation block is
orthogonal (a valid rotation), composing with the inverse produced by
`SE3.inverse` yields exactly the identity transform; in particular every
entry is within the claimed `1e-6` tolerance of the identity. -/
theorem C8_compose_inverse (a : Aff) (h : a.R.transpose * a.R = 1) :
    Aff.mul a (Aff.inv a) = Aff.id ∧
    (∀ i j, |(Aff.mul a (Aff.inv a)).R i j - Aff.id.R i j| ≤ 1/1000000) ∧
    (∀ i, |(Aff.mul a (Aff.inv a)).t i - Aff.id.t i| ≤ 1/1000000) := by
  have hR : a.R * a.R.transpose = 1 := Matrix.mul_eq_one_comm.mp h
  have key : Aff.mul a (Aff.inv a) = Aff.id := by
    show Aff.mk (a.R * a.R.transpose)
      (a.R.mulVec (-(a.R.transpose.mulVec a.t)) + a.t) = Aff.id
    rw [Matrix.mulVec_neg, Matrix.mulVec_mulVec, hR, Matrix.one_mulVec,
      neg_add_cancel]
    rfl
  refine ⟨key, ?_, ?_⟩
  · intro i j; rw [key]; simp only [sub_self, abs_zero]; norm_num
  · intro i; rw [key]; simp only [sub_self, abs_zero]; norm_num

/-- Witness for C8 at a rotation by 90° about `z` with translation `(1,2,3)`. -/
theorem C8_compose_inverse_witness :
    (aff90.R.transpose * aff90.R = 1) ∧
    (Aff.mul aff90 (Aff.inv aff90) = Aff.id ∧
      (∀ i j, |(Aff.mul aff90 (Aff.inv aff90)).R i j - Aff.id.R i j| ≤ 1/1000000) ∧
      (∀ i, |(Aff.mul aff90 (Aff.inv aff90)).t i - Aff.id.t i| ≤ 1/1000000)) := by
  have horth : aff90.R.transpose * aff90.R = 1 := by
    ext i j
    rw [Matrix.mul_apply, Fin.sum_univ_three]
    fin_cases i <;> fin_cases j <;>
      simp [aff90, rotZ90, Matrix.transpose_apply, Matrix.one_apply,
        Matrix.vecHead, Matrix.vecTail]
  exact ⟨horth, C8_compose_inverse aff90 horth⟩

/-! ## C7: rotation construction -/

/-- C7 (amended): constructing a rotation from any finite quaternion raises
no exception. A nonzero quaternion is renormalized (the stored quaternion is
`q/‖q‖` and has unit norm). A zero-length quaternion is *not* rejected:
the division by the zero norm produces NaN components and construction
silently succeeds with an invalid all-NaN quaternion (there is no
`DegenerateRotation` error anywhere in the source). The hypotheses state
that `rt` computes the square root of the squared norm at the input. -/
theorem C7_so3_construct (rt : ℚ → ℚ) (q : Fin 4 → ℚ)
    (hnn : 0 ≤ rt (normSqQ4 q)) (hsq : rt (normSqQ4 q) * rt (normSqQ4 q) = normSqQ4 q) :
    (SO3initF rt q).isOk = true ∧
    (normSqQ4 q = 0 → SO3initF rt q = Except.ok (fun _ => FVal.nan)) ∧
    (normSqQ4 q ≠ 0 →
      SO3initF rt q = Except.ok (fun i => FVal.fin (q i / rt (normSqQ4 q))) ∧
      normSqQ4 (fun i => q i / rt (normSqQ4 q)) = 1) := by
  by_cases h0 : normSqQ4 q = 0
  · have hN := h0
    unfold normSqQ4 at hN
    have hq0 : ∀ i, q i = 0 := by
      have h00 : q 0 = 0 := mul_self_eq_zero.mp (by
        nlinarith [mul_self_nonneg (q 1), mul_self_nonneg (q 2), mul_self_nonneg (q 3)])
      have h01 : q 1 = 0 := mul_self_eq_zero.mp (by
        nlinarith [mul_self_nonneg (q 0), mul_self_nonneg (q 2), mul_self_nonneg (q 3)])
      have h02 : q 2 = 0 := mul_self_eq_zero.mp (by
        nlinarith [mul_self_nonneg (q 0), mul_self_nonneg (q 1), mul_self_nonneg (q 3)])
      have h03 : q 3 = 0 := mul_self_eq_zero.mp (by
        nlinarith [mul_self_nonneg (q 0), mul_self_nonneg (q 1), mul_self_nonneg (q 2)])
      intro i
      fin_cases i <;> assumption
    have hr0 : rt (normSqQ4 q) = 0 := by
      have h' := hsq
      rw [h0] at h'
      rw [h0]
      exact mul_self_eq_zero.mp h'
    have hfun : (fun i => (FVal.fin (q i)).div (FVal.fin (rt (normSqQ4 q)))) =
        (fun _ : Fin 4 => FVal.nan) := by
      funext i; rw [hq0 i, hr0]; rfl
    have hok : SO3initF rt q = Except.ok (fun _ => FVal.nan) := by
      unfold SO3initF
      simp only [hfun]
      rw [if_neg (by decide)]
    refine ⟨by rw [hok]; rfl, fun _ => hok, fun hcon => absurd h0 hcon⟩
  · have hrne : rt (normSqQ4 q) ≠ 0 := by
      intro hc; rw [hc, zero_mul] at hsq; exact h0 hsq.symm
    have hdiv : ∀ x : ℚ, (FVal.fin x).div (FVal.fin (rt (normSqQ4 q))) =
        FVal.fin (x / rt (normSqQ4 q)) := by
      intro x
      have hstep : (FVal.fin x).div (FVal.fin (rt (normSqQ4 q))) =
          if rt (normSqQ4 q) = 0 then
            (if x = 0 then FVal.nan else if 0 < x then FVal.pinf else FVal.ninf)
          else FVal.fin (x / rt (normSqQ4 q)) := rfl
      rw [hstep, if_neg hrne]
    have hfun : (fun i => (FVal.fin (q i)).div (FVal.fin (rt (normSqQ4 q)))) =
        (fun i => FVal.fin (q i / rt (normSqQ4 q))) := by
      funext i; exact hdiv (q i)
    have hunit : normSqQ4 (fun i => q i / rt (normSqQ4 q)) = 1 := by
      have hexp : normSqQ4 (fun i => q i / rt (normSqQ4 q))
          = normSqQ4 q / (rt (normSqQ4 q) * rt (normSqQ4 q)) := by
        unfold normSqQ4
        field_simp
      rw [hexp, hsq, div_self h0]
    have hcond : normSqF (fun i => FVal.fin (q i / rt (normSqQ4 q))) =
        FVal.fin (normSqQ4 (fun i => q i / rt (normSqQ4 q))) := rfl
    have hok : SO3initF rt q =
        Except.ok (fun i => FVal.fin (q i / rt (normSqQ4 q))) := by
      unfold SO3initF
      simp only [hfun]
      rw [if_neg (by rw [hcond, hunit]; simp)]
    exact ⟨by rw [hok]; rfl, fun hcon => absurd hcon h0, fun _ => ⟨hok, hunit⟩⟩

/-- Witness for C7 at the non-unit quaternion `(0,0,0,2)` with `rt` returning
its true norm `2`: construction succeeds with the renormalized unit
quaternion. -/
theorem C7_so3_construct_witness :
    ((0 : ℚ) ≤ (fun _ : ℚ => (2 : ℚ)) (normSqQ4 ![0,0,0,2]) ∧
      (fun _ : ℚ => (2 : ℚ)) (normSqQ4 ![0,0,0,2]) *
        (fun _ : ℚ => (2 : ℚ)) (normSqQ4 ![0,0,0,2]) = normSqQ4 ![0,0,0,2]) ∧
    ((SO3initF (fun _ => 2) ![0,0,0,2]).isOk = true ∧
      (normSqQ4 ![0,0,0,2] = 0 →
        SO3initF (fun _ => 2) ![0,0,0,2] = Except.ok (fun _ => FVal.nan)) ∧
      (normSqQ4 ![0,0,0,2] ≠ 0 →
        SO3initF (fun _ => 2) ![0,0,0,2] =
          Except.ok (fun i => FVal.fin (![0,0,0,2] i /
            (fun _ : ℚ => (2 : ℚ)) (normSqQ4 ![0,0,0,2]))) ∧
        normSqQ4 (fun i => ![0,0,0,2] i /
          (fun _ : ℚ => (2 : ℚ)) (normSqQ4 ![0,0,0,2])) = 1)) := by
  have h1 : (0 : ℚ) ≤ (fun _ : ℚ => (2 : ℚ)) (normSqQ4 ![0,0,0,2]) := by norm_num
  have h2 : (fun _ : ℚ => (2 : ℚ)) (normSqQ4 ![0,0,0,2]) *
      (fun _ : ℚ => (2 : ℚ)) (normSqQ4 ![0,0,0,2]) = normSqQ4 ![0,0,0,2] := by
    norm_num [normSqQ4]
  exact ⟨⟨h1, h2⟩, C7_so3_construct (fun _ => 2) ![0,0,0,2] h1 h2⟩

/-- Counterexample to C7 as stated: the all-zero quaternion does not fail
with any error — `SO3.__init__` divides by the zero norm, producing NaN
components, and construction silently succeeds. -/
theorem C7_zero_quat_silent_cex :
    SO3initF (fun _ => 0) (fun _ => 0) = Except.ok (fun _ => FVal.nan) := rfl

/-! ## C6: chain construction -/

/-- C6 (amended): the fallback root determination returns a link that is the
parent of some joint and the child of none; it fails (with a `ValueError`,
not an `AmbiguousRoot` error — no such type exists in the source) exactly
when there is no such link; when several candidate roots exist it silently
returns one of them instead of failing (see the counterexample). The chain
walk from the end-effector fails with a missing-joint `ValueError` (not a
`BrokenChain` error) exactly on reaching a non-root link that is the child
of no joint. -/
theorem C6_root_and_walk :
    (∀ joints r, getBaseLinkFallback joints = Except.ok r →
      r ∈ joints.map (fun j => j.parent) ∧ ¬ r ∈ joints.map (fun j => j.child)) ∧
    (∀ joints, getBaseLinkFallback joints = Except.error KErr.noRoot ↔
      rootCandidates joints = []) ∧
    (∀ joints, rootCandidates joints = [] ↔
      ∀ p ∈ joints.map (fun j => j.parent), p ∈ joints.map (fun j => j.child)) ∧
    (∀ joints base fuel link l,
      chainWalk joints base fuel link = Except.error (KErr.missingJoint l) →
      childToJoint joints l = none ∧ l ≠ base) := by
  refine ⟨?_, ?_, ?_, ?_⟩
  · intro joints r h
    rcases hrc : rootCandidates joints with _ | ⟨a, rest⟩
    · rw [getBaseLinkFallback, hrc] at h
      exact absurd h (by simp)
    · rw [getBaseLinkFallback, hrc] at h
      have hra : a = r := by simpa using h
      have hm : r ∈ rootCandidates joints := by
        rw [hrc, ← hra]; exact List.mem_cons_self _ _
      have hm2 := List.mem_filter.mp (List.mem_dedup.mp hm)
      exact ⟨hm2.1, by simpa using hm2.2⟩
  · intro joints
    rcases hrc : rootCandidates joints with _ | ⟨a, rest⟩ <;>
      simp [getBaseLinkFallback, hrc]
  · intro joints
    rw [rootCandidates, List.dedup_eq_nil, List.filter_eq_nil]
    simp
  · intro joints base fuel
    induction fuel with
    | zero =>
      intro link l h
      rw [chainWalk] at h
      exact absurd h (by simp)
    | succ n ih =>
      intro link l h
      rw [chainWalk] at h
      by_cases hlb : link = base
      · rw [if_pos hlb] at h
        exact absurd h (by simp)
      · rw [if_neg hlb] at h
        rcases hcj : childToJoint joints link with _ | j
        · rw [hcj] at h
          have hl : link = l := by simpa using h
          exact ⟨hl ▸ hcj, hl ▸ hlb⟩
        · rw [hcj] at h
          have h2 : Except.map (fun rest => rest ++ [j]) (chainWalk joints base n j.parent)
              = Except.error (KErr.missingJoint l) := h
          rcases hw : chainWalk joints base n j.parent with e | v
          · rw [hw] at h2
            have he : e = KErr.missingJoint l := by simpa [Except.map] using h2
            exact ih j.parent l (he ▸ hw)
          · rw [hw] at h2
            exact absurd h2 (by simp [Except.map])

/-- Witness for C6: on a one-joint description the root returned is the
parent link `a`, which is a parent and not a child; and a walk that stalls
on link `z` reports exactly that `z` has no incoming joint and is not the
base. -/
theorem C6_root_and_walk_witness :
    ("a" ∈ [oneJoint].map (fun j => j.parent) ∧
      ¬ "a" ∈ [oneJoint].map (fun j => j.child)) ∧
    (childToJoint ([] : List RJoint) "z" = none ∧ "z" ≠ "b") :=
  ⟨C6_root_and_walk.1 [oneJoint] "a" (by rfl),
    C6_root_and_walk.2.2.2 [] "b" 1 "z" "z" (by rfl)⟩

/-- Counterexample to C6 as stated: a description with two root candidates
(`la` and `lc`) does not fail — the code silently picks the first root
rather than reporting an ambiguity. -/
theorem C6_two_roots_no_error_cex :
    rootCandidates twoRootJoints = ["la", "lc"] ∧
    (getBaseLinkFallback twoRootJoints).isOk = true := by
  constructor <;> decide

/-! ## C3: batched forward kinematics -/

/-- Folding the batched per-joint update over a list of row states acts
row-wise: row `i` of the result is the fold applied to row `i` alone. -/
theorem foldl_map_torch (s c : ℚ → ℚ) (nv : Vec3 → ℚ) (pref : List RJoint) :
    ∀ (sts : List (Aff × List ℚ)) (i : ℕ),
      (pref.foldl (fun acc j => acc.map (torchStep s c nv j)) sts).get? i
        = (sts.get? i).map
            (fun st => pref.foldl (fun st j => torchStep s c nv j st) st) := by
  induction pref with
  | nil =>
    intro sts i
    simp
  | cons j js ih =>
    intro sts i
    rw [List.foldl_cons, ih (sts.map (torchStep s c nv j)) i, List.get?_map]
    cases sts.get? i <;> simp [List.foldl_cons]

/-- The torch batch accumulation equals the row-by-row accumulation. -/
theorem fkBatchTorchCore_rows (s c : ℚ → ℚ) (nv : Vec3 → ℚ) (pref : List RJoint)
    (qs : List (List ℚ)) :
    fkBatchTorchCore s c nv pref qs = qs.map (fkRowTorch s c nv pref) := by
  apply List.ext_get?
  intro i
  unfold fkBatchTorchCore fkRowTorch
  rw [List.get?_map, foldl_map_torch s c nv pref (qs.map (fun row => (Aff.id, row))) i,
    List.get?_map, List.get?_map]
  cases qs.get? i <;> simp

/-- C3 (amended): the per-row batched path is by construction the list of the
`K` single-configuration calls, so it agrees with them row for row, raises
included; the torch batched path is row-independent — it returns, for every
row, the torch chain accumulation applied to that row alone — but it performs
no joint-limit validation, so it does not agree with single-row FK on which
rows raise (see the counterexample), and its motion transforms normalize
prismatic axes where the single-row path does not. -/
theorem C3_batched_fk (s c : ℚ → ℚ) (nv : Vec3 → ℚ) (chain : List RJoint)
    (base ee : String) (qs : List (List ℚ))
    (h1 : ee ≠ base) (h2 : ee ∈ chain.map (fun j => j.child)) :
    fkBatchPerRow s c nv chain qs = qs.map (fkSingle s c nv chain) ∧
    fkBatchTorch s c nv chain base ee ee qs =
      Except.ok (qs.map (fkRowTorch s c nv
        (chain.take (((lastIdxOf (chain.map (fun j => j.child)) ee).getD
          ((chain.map (fun j => j.child)).length - 1)) + 1)))) := by
  refine ⟨rfl, ?_⟩
  simp only [fkBatchTorch]
  rw [if_neg h1, if_neg (by simp [h2]), fkBatchTorchCore_rows]

/-- Witness for C3 on the two-joint mock chain with a two-row batch. -/
theorem C3_batched_fk_witness :
    (("link2" : String) ≠ "base_link" ∧
      "link2" ∈ chain2.map (fun j => j.child)) ∧
    (fkBatchPerRow zeroSin oneCos oneNorm chain2 [[0, 0], [0, 1/2]] =
      [[0, 0], [0, 1/2]].map (fkSingle zeroSin oneCos oneNorm chain2) ∧
    fkBatchTorch zeroSin oneCos oneNorm chain2 "base_link" "link2" "link2"
        [[0, 0], [0, 1/2]] =
      Except.ok ([[0, 0], [0, 1/2]].map (fkRowTorch zeroSin oneCos oneNorm
        (chain2.take (((lastIdxOf (chain2.map (fun j => j.child)) "link2").getD
          ((chain2.map (fun j => j.child)).length - 1)) + 1))))) :=
  ⟨⟨by decide, by decide⟩,
    C3_batched_fk zeroSin oneCos oneNorm chain2 "base_link" "link2"
      [[0, 0], [0, 1/2]] (by decide) (by decide)⟩

/-- Counterexample to C3 as stated: on a one-joint prismatic chain with
limits `[0, 1]`, the configuration `2` makes single-row FK raise a
joint-limit error, while the torch batched path on the batch `[[2]]`
computes a pose without raising — the two implementations do not agree on
which rows raise. -/
theorem C3_torch_skips_validation_cex :
    fkSingle zeroSin oneCos oneNorm [prismJoint] [2] =
      Except.error (KErr.limitExceeded "j2" 2) ∧
    (fkBatchTorch zeroSin oneCos oneNorm [prismJoint] "link1" "link2" "link2"
      [[2]]).isOk = true := by
  constructor
  · rfl
  · rfl

/-! ## C5: Jacobian column structure -/

/-- The frame loop of `jacobian` records, at position `j`, exactly the
prefix-product frame `(∏_{k<j} origin_k · motion_k) · origin_j` together
with joint `j`'s axis and type, and its final accumulator is the full chain
product. -/
theorem fkFrames_spec (s c : ℚ → ℚ) (nv : Vec3 → ℚ) :
    ∀ (l : List (RJoint × ℚ)) (T : Aff),
      (fkFrames s c nv T l).2 = fkFold s c nv T l ∧
      (fkFrames s c nv T l).1.length = l.length ∧
      ∀ j, j < l.length →
        (fkFrames s c nv T l).1.getD j (Aff.id, 0, "") =
          ((fkFold s c nv T (l.take j)).mul (l.getD j default).1.origin,
           (l.getD j default).1.axis, (l.getD j default).1.jtype) := by
  intro l
  induction l with
  | nil =>
    intro T
    exact ⟨rfl, rfl, fun j hj => absurd hj (by simp)⟩
  | cons p rest ih =>
    intro T
    obtain ⟨ihA, ihB, ihC⟩ :=
      ih ((T.mul p.1.origin).mul (motionNp s c nv p.1.jtype p.1.axis p.2))
    refine ⟨?_, ?_, ?_⟩
    · simpa [fkFrames, fkFold] using ihA
    · simpa [fkFrames] using ihB
    · intro j hj
      cases j with
      | zero => simp [fkFrames, fkFold]
      | succ k =>
        have hk : k < rest.length := by simpa using hj
        have hrec := ihC k hk
        simpa [fkFrames, fkFold] using hrec

/-- C5 (confirmed): for an in-limits configuration of the right dimension,
`jacobian` succeeds and returns one 6-row column per joint (a 6×N matrix),
and column `j` has the claimed geometric form: for revolute/continuous
joints `(a_j × (p_ee − p_j), a_j)`, for prismatic joints `(a_j, 0)`, and the
zero column otherwise, with `a_j`, `p_j` taken from the accumulated joint
frame and `p_ee` from the full chain product. -/
theorem C5_jacobian_columns (s c : ℚ → ℚ) (nv : Vec3 → ℚ) (chain : List RJoint)
    (q : List ℚ) (hlen : q.length = chain.length)
    (hval : validateLimits chain q = Except.ok ()) :
    jacobianChecked s c nv chain q = Except.ok (jacCols s c nv chain q) ∧
    (jacCols s c nv chain q).length = chain.length ∧
    ∀ j, j < chain.length →
      (jacCols s c nv chain q).getD j 0 = specColumn s c nv chain q j := by
  have hzlen : (chain.zip q).length = chain.length := by
    rw [List.length_zip, hlen, min_self]
  obtain ⟨hA, hB, hC⟩ := fkFrames_spec s c nv (chain.zip q) Aff.id
  refine ⟨?_, ?_, ?_⟩
  · simp [jacobianChecked, hlen, hval]
  · simp only [jacCols, List.length_map]
    rw [hB, hzlen]
  · intro j hj
    have hjq : j < q.length := by rw [hlen]; exact hj
    have hjz : j < (chain.zip q).length := by rw [hzlen]; exact hj
    have hjf : j < (fkFrames s c nv Aff.id (chain.zip q)).1.length := by
      rw [hB]; exact hjz
    have hmap : (jacCols s c nv chain q).getD j 0
        = colOf (fkFrames s c nv Aff.id (chain.zip q)).2.t
            ((fkFrames s c nv Aff.id (chain.zip q)).1.getD j (Aff.id, 0, "")) := by
      simp only [jacCols]
      rw [List.getD_eq_getElem _ _ (by simpa [hB, hzlen] using hj),
        List.getElem_map, List.getD_eq_getElem _ _ hjf]
    have hz : (chain.zip q).getD j default = (chain.getD j default, q.getD j 0) := by
      rw [List.getD_eq_getElem _ _ hjz, List.getD_eq_getElem _ _ hj,
        List.getD_eq_getElem _ _ hjq, List.getElem_zip]
    rw [hmap, hC j hjz, hA, hz]
    rfl

/-- Witness for C5 on the two-joint mock chain at `q = [0, 1/2]`. -/
theorem C5_jacobian_columns_witness :
    (([0, 1/2] : List ℚ).length = chain2.length ∧
      validateLimits chain2 [0, 1/2] = Except.ok ()) ∧
    (jacobianChecked zeroSin oneCos oneNorm chain2 [0, 1/2] =
        Except.ok (jacCols zeroSin oneCos oneNorm chain2 [0, 1/2]) ∧
      (jacCols zeroSin oneCos oneNorm chain2 [0, 1/2]).length = chain2.length ∧
      ∀ j, j < chain2.length →
        (jacCols zeroSin oneCos oneNorm chain2 [0, 1/2]).getD j 0 =
          specColumn zeroSin oneCos oneNorm chain2 [0, 1/2] j) := by
  have hlen : ([0, 1/2] : List ℚ).length = chain2.length := by decide
  have hval : validateLimits chain2 [0, 1/2] = Except.ok () := by
    norm_num [validateLimits, chain2, revJoint, prismJoint]
  exact ⟨⟨hlen, hval⟩,
    C5_jacobian_columns zeroSin oneCos oneNorm chain2 [0, 1/2] hlen hval⟩

/-! ## C9: IK at an already-exact target -/

/-- C9 (confirmed): running the IK loop with target equal to the FK pose of
an in-limits `q*` and initial guess `q*` returns `q*` using at most one
iteration (any fuel `≥ 1`, in particular `max_iterations` itself, yields the
same immediate result), with final squared position error `0`, below the
squared tolerance. -/
theorem C9_ik_converges_immediately (s c : ℚ → ℚ) (nv : Vec3 → ℚ)
    (pinvApp : List (Fin 3 → ℚ) → Vec3 → List ℚ) (chain : List RJoint)
    (q : List ℚ) (fuel : ℕ)
    (hlen : q.length = chain.length) (hval : validateLimits chain q = Except.ok ())
    (hfuel : 1 ≤ fuel) :
    ikLoop s c nv pinvApp chain (chainFK s c nv chain q).t fuel q = Except.ok q ∧
    normSq3 (fun i => (chainFK s c nv chain q).t i - (chainFK s c nv chain q).t i)
      < 1/100000000 := by
  have hfk : fkSingle s c nv chain q = Except.ok (chainFK s c nv chain q) := by
    simp [fkSingle, hlen, hval]
  have hzero : normSq3 (fun i => (chainFK s c nv chain q).t i -
      (chainFK s c nv chain q).t i) < 1/100000000 := by
    simp only [normSq3, sub_self, mul_zero, add_zero, zero_add]
    norm_num
  obtain ⟨m, rfl⟩ : ∃ m, fuel = m + 1 := ⟨fuel - 1, by omega⟩
  refine ⟨?_, hzero⟩
  simp only [ikLoop, hfk]
  rw [if_pos hzero]

/-- Witness for C9 on the one-joint prismatic chain at `q* = [1/2]` with
fuel 1. -/
theorem C9_ik_converges_immediately_witness :
    (([1/2] : List ℚ).length = [prismJoint].length ∧
      validateLimits [prismJoint] [1/2] = Except.ok () ∧ 1 ≤ 1) ∧
    (ikLoop zeroSin oneCos oneNorm pinvOneCol [prismJoint]
        (chainFK zeroSin oneCos oneNorm [prismJoint] [1/2]).t 1 [1/2] =
      Except.ok [1/2] ∧
    normSq3 (fun i => (chainFK zeroSin oneCos oneNorm [prismJoint] [1/2]).t i -
        (chainFK zeroSin oneCos oneNorm [prismJoint] [1/2]).t i) < 1/100000000) := by
  have hlen : ([1/2] : List ℚ).length = [prismJoint].length := by decide
  have hval : validateLimits [prismJoint] [1/2] = Except.ok () := by
    norm_num [validateLimits, prismJoint]
  exact ⟨⟨hlen, hval, le_refl 1⟩,
    C9_ik_converges_immediately zeroSin oneCos oneNorm pinvOneCol [prismJoint]
      [1/2] 1 hlen hval (le_refl 1)⟩

/-! ## C4: IK non-convergence behaviour -/

/-- C4 (code evaluated at the failing input): on the one-joint prismatic
chain with limits `[0, 1]`, IK toward the reachable-only-outside-limits
target `(5,0,0)` from the in-limits guess `q0 = [1]` steps to `q = [5]`
after one damped-least-squares update and then *raises* the joint-limit
`ValueError` from `forward_kinematics` on the next iteration, instead of
terminating with a non-converged result; the abstract pseudoinverse is
instantiated with the exact Moore–Penrose closed form for the 3×1 positional
Jacobian encountered. -/
theorem C4_ik_raises_mid_run :
    ikLoop zeroSin oneCos oneNorm pinvOneCol [prismJoint] ![5, 0, 0] 2 [1]
      = Except.error (KErr.limitExceeded "j2" 5) := by
  have hsp : ¬ (("prismatic" : String) = "revolute" ∨
      ("prismatic" : String) = "continuous") := by decide
  have hval1 : validateLimits [prismJoint] [1] = Except.ok () := rfl
  have hfk1 : fkSingle zeroSin oneCos oneNorm [prismJoint] [1] =
      Except.ok (chainFK zeroSin oneCos oneNorm [prismJoint] [1]) := by
    simp [fkSingle, hval1]
  have ht : (chainFK zeroSin oneCos oneNorm [prismJoint] [1]).t = ![1, 0, 0] := by
    funext i
    fin_cases i <;>
      simp [chainFK, fkFold, motionNp, prismJoint, Aff.mul, Aff.id,
        Matrix.one_mulVec, Matrix.mulVec_zero, Matrix.vecHead, Matrix.vecTail]
  have hcond : ¬ (normSq3 (fun i => ![(5:ℚ),0,0] i -
      (chainFK zeroSin oneCos oneNorm [prismJoint] [1]).t i) < 1/100000000) := by
    rw [ht]
    norm_num [normSq3, Matrix.vecHead, Matrix.vecTail]
  have hjac : jacobianChecked zeroSin oneCos oneNorm [prismJoint] [1] =
      Except.ok (jacCols zeroSin oneCos oneNorm [prismJoint] [1]) := by
    simp [jacobianChecked, hval1]
  have harg : List.zipWith (fun a b => a + b) [1]
      (pinvOneCol ((jacCols zeroSin oneCos oneNorm [prismJoint] [1]).map firstThree)
        (fun i => ![(5:ℚ),0,0] i -
          (chainFK zeroSin oneCos oneNorm [prismJoint] [1]).t i)) = [5] := by
    rw [ht]
    norm_num [jacCols, fkFrames, colOf, cat6, firstThree, pinvOneCol, motionNp,
      prismJoint, Aff.mul, Aff.id, Matrix.one_mulVec, Matrix.mulVec_zero,
      Matrix.vecHead, Matrix.vecTail, hsp]
  have step1 : ∀ n : ℕ, ikLoop zeroSin oneCos oneNorm pinvOneCol [prismJoint]
      ![5, 0, 0] (n+1) [1] = ikLoop zeroSin oneCos oneNorm pinvOneCol [prismJoint]
      ![5, 0, 0] n [5] := by
    intro n
    simp only [ikLoop, hfk1]
    rw [if_neg hcond]
    simp only [hjac]
    rw [harg]
  have step2 : ∀ n : ℕ, ikLoop zeroSin oneCos oneNorm pinvOneCol [prismJoint]
      ![5, 0, 0] (n+1) [5] = Except.error (KErr.limitExceeded "j2" 5) := by
    intro n
    have hfk5 : fkSingle zeroSin oneCos oneNorm [prismJoint] [5] =
        Except.error (KErr.limitExceeded "j2" 5) := rfl
    simp only [ikLoop, hfk5]
  have h2 : ikLoop zeroSin oneCos oneNorm pinvOneCol [prismJoint] ![5, 0, 0] 2 [1]
      = ikLoop zeroSin oneCos oneNorm pinvOneCol [prismJoint] ![5, 0, 0] (1+1) [1] := rfl
  rw [h2, step1 1]
  exact step2 0
